import Mathlib

/-!
Verification of the thread-management and response-assembly core of a
Streamlit client for a conversational agent service (`streamlit_app.py`).

The Lean definitions below are a shallow embedding of the Python source:
Python lists become `List`, dictionaries with a known shape become
structures, dictionary `.get` on possibly-absent keys becomes `Option`,
and operations that can raise (`IndexError`, `TypeError`,
`AttributeError`) return `Option`/`Except`.
-/

/-! ## Session state and thread deletion (`Callbacks`, `CortexThreads`) -/

/-- The slice of `st.session_state` the thread operations touch:
`current_thread` (initially `None`) and `parent_message_id` (initially `0`). -/
structure SessionState where
  current_thread : Option String
  parent_message_id : Nat
deriving DecidableEq, Repr

/-- Result of an HTTP request, as seen by `raise_for_status`:
either a 2xx success or an HTTP error status. -/
inductive HttpResult where
  | success
  | httpError (status : Nat)
deriving DecidableEq, Repr

/-- `CortexThreads._process_response`: calls `raise_for_status` inside
`try`, returns the request on success; on `HTTPError` the handler calls
`st.exception` (display only) and the function falls through, returning
`None`.  It does not re-raise. -/
def process_response (r : HttpResult) : Option HttpResult :=
  match r with
  | .success => some r
  | .httpError _ => none

/-- `CortexThreads.delete_thread`: issues the DELETE, feeds the response
through `_process_response` (whose result is discarded), then — regardless
of the outcome — resets `current_thread`/`parent_message_id` when the
deleted id equals the active thread. -/
def delete_thread (r : HttpResult) (id : String) (s : SessionState) : SessionState :=
  let _ := process_response r
  if s.current_thread = some id then ⟨none, 0⟩ else s

/-! ## Causal pointer derivation (`CortexAgent.get_last_message_id`) -/

/-- One stored message as returned by `GET cortex/threads/{id}`; only the
field the causal-pointer computation reads. -/
structure StoredMessage where
  message_id : Nat
deriving DecidableEq, Repr

/-- The response body of `GET cortex/threads/{id}`. -/
structure ThreadMessages where
  messages : List StoredMessage
deriving DecidableEq, Repr

/-- `CortexAgent.get_last_message_id`: computes
`messages.get("messages")[:-1][0].get("message_id")` and stores it as
`parent_message_id`.  `[:-1]` is `dropLast`; `[0]` raises `IndexError` on
an empty list, modelled by `none`. -/
def get_last_message_id (tm : ThreadMessages) : Option Nat :=
  (tm.messages.dropLast.head?).map (fun m => m.message_id)

/-! ## Theorems for claims C1, C3, C4, C10 -/

/-- C1: for a non-empty message list, the causal pointer computed by
`get_last_message_id` is claimed to equal the `message_id` of the last
message in the list.  The code instead takes the first element of the list
with its last element dropped: on a two-message thread it stores the first
id, not the last. -/
theorem causal_pointer_is_first_not_last :
    get_last_message_id ⟨[⟨10⟩, ⟨20⟩]⟩ = some 10
    ∧ ([⟨10⟩, ⟨20⟩] : List StoredMessage).getLast?.map (fun m => m.message_id) = some 20
    ∧ (10 : Nat) ≠ 20 := by
  refine ⟨rfl, rfl, by decide⟩

/-- C10: when the fetched message list has exactly one message, the
caller's non-emptiness guard (`if len(messages):`) passes, yet
`get_last_message_id` hits `IndexError`: dropping the last element leaves
an empty list whose first element is then taken. -/
theorem causal_pointer_singleton_index_error (tm : ThreadMessages)
    (h : tm.messages.length = 1) :
    0 < tm.messages.length ∧ get_last_message_id tm = none := by
  refine ⟨by omega, ?_⟩
  match tm, h with
  | ⟨[m]⟩, _ => rfl

/-- Witness for C10 at a concrete one-message thread. -/
theorem causal_pointer_singleton_index_error_witness :
    0 < (ThreadMessages.mk [⟨5⟩]).messages.length
    ∧ get_last_message_id ⟨[⟨5⟩]⟩ = none :=
  causal_pointer_singleton_index_error ⟨[⟨5⟩]⟩ rfl

/-- C3: a successful `delete_thread` of the active thread resets the
active-thread pointer to `None` and the causal pointer to `0`; a
successful delete of any other thread leaves the session state unchanged. -/
theorem delete_thread_success_behavior (s : SessionState) (id : String) :
    (s.current_thread = some id → delete_thread .success id s = ⟨none, 0⟩)
    ∧ (s.current_thread ≠ some id → delete_thread .success id s = s) := by
  constructor
  · intro h
    simp [delete_thread, h]
  · intro h
    simp [delete_thread, h]

/-- Witness for C3: deleting the active thread `"t1"` resets the state;
deleting the inactive `"t2"` leaves it unchanged. -/
theorem delete_thread_success_behavior_witness :
    delete_thread .success "t1" ⟨some "t1", 7⟩ = ⟨none, 0⟩
    ∧ delete_thread .success "t2" ⟨some "t1", 7⟩ = ⟨some "t1", 7⟩ :=
  ⟨(delete_thread_success_behavior ⟨some "t1", 7⟩ "t1").1 rfl,
   (delete_thread_success_behavior ⟨some "t1", 7⟩ "t2").2 (by decide)⟩

/-- C4: the claim says a failed (HTTP error) thread operation leaves the
session state unchanged.  But `_process_response` swallows the
`HTTPError`, so `delete_thread` still resets both pointers when the
deleted id equals the active thread: the error path mutates state. -/
theorem delete_thread_error_path_mutates :
    process_response (.httpError 500) = none
    ∧ delete_thread (.httpError 500) "t1" ⟨some "t1", 7⟩ = ⟨none, 0⟩
    ∧ (⟨none, 0⟩ : SessionState) ≠ ⟨some "t1", 7⟩ := by
  refine ⟨rfl, rfl, by decide⟩

/-! ## Stored-message annotation rendering (`_format_annotations`, `parse_payload`) -/

/-- One element of a stored text item's `annotations` list, with the
fields `_format_annotations` reads: `doc_id` and `index` (the character
offset into the original text). -/
structure StoredAnnot where
  doc_id : String
  index : Nat
deriving DecidableEq, Repr

/-- One entry of the `annotations_dict` built by `_format_annotations`:
`number` (1-based enumeration order), `url`, `position`. -/
structure FmtAnnot where
  number : Nat
  url : String
  position : Nat
deriving DecidableEq, Repr

/-- The loop body of `_format_annotations`: `enumerate(annotations, start=i)`. -/
def formatAnnotationsFrom (i : Nat) : List StoredAnnot → List FmtAnnot
  | [] => []
  | a :: rest => ⟨i, a.doc_id, a.index⟩ :: formatAnnotationsFrom (i + 1) rest

/-- `CortexAgent._format_annotations`: enumerate from 1, recording
`number`/`url`/`position` for each source item. -/
def format_annotations (annotations : List StoredAnnot) : List FmtAnnot :=
  formatAnnotationsFrom 1 annotations

/-- One insertion step of Python `sorted(..., key=lambda item: item["number"], reverse=True)`:
stable insertion keeping larger `number` first. -/
def insertByNumberDesc (a : FmtAnnot) : List FmtAnnot → List FmtAnnot
  | [] => [a]
  | b :: l => if b.number ≤ a.number then a :: b :: l else b :: insertByNumberDesc a l

/-- The `sorted_positions` list of `parse_payload`:
`sorted(annotations_dict, key=lambda item: item["number"], reverse=True)`. -/
def sortByNumberDesc (l : List FmtAnnot) : List FmtAnnot :=
  l.foldr insertByNumberDesc []

/-- Python `list.insert(i, x)`: inserts before index `i`, clamping to the
end of the list when `i` is past it (no error). -/
def pyListInsert (i : Nat) (x : α) (l : List α) : List α :=
  match i, l with
  | 0, l => x :: l
  | _ + 1, [] => [x]
  | i + 1, b :: l => b :: pyListInsert i x l

/-- The marker string `parse_payload` inserts for one annotation:
` :grey-background[:small[[ N ](url)]] ` with `N` the annotation number. -/
def annotationMarker (a : FmtAnnot) : String :=
  " :grey-background[:small[[ " ++ toString a.number ++ " ](" ++ a.url ++ ")]] "

/-- The annotated-text branch of `CortexAgent.parse_payload`: split the
raw text into a list of one-character strings (`list(raw_response)`),
insert each formatted marker at its recorded `position` in
number-descending order, and join (`"".join(response_list)`). -/
def renderAnnotated (raw_response : String) (annotations : List StoredAnnot) : String :=
  let annotations_dict := format_annotations annotations
  let response_list := raw_response.toList.map (fun c => String.singleton c)
  let sorted_positions := sortByNumberDesc annotations_dict
  String.join
    (sorted_positions.foldl (fun l a => pyListInsert a.position (annotationMarker a) l)
      response_list)

/-- Modelled from the spec: one insertion step of a stable sort by
`position` descending with ties broken by `number` descending — the
application order section 4.3 of the spec claims the code uses. -/
def insertByPosNumDesc (a : FmtAnnot) : List FmtAnnot → List FmtAnnot
  | [] => [a]
  | b :: l =>
    if b.position < a.position ∨ (b.position = a.position ∧ b.number ≤ a.number) then
      a :: b :: l
    else b :: insertByPosNumDesc a l

/-- Modelled from the spec: sort by `position` descending, ties by
`number` descending. -/
def sortByPosNumDesc (l : List FmtAnnot) : List FmtAnnot :=
  l.foldr insertByPosNumDesc []

/-- Modelled from the spec: the renderer section 4.3 describes, identical
to `renderAnnotated` except that annotations are applied in
position-descending (ties number-descending) order. -/
def renderAnnotatedSpec (raw_response : String) (annotations : List StoredAnnot) : String :=
  let annotations_dict := format_annotations annotations
  let response_list := raw_response.toList.map (fun c => String.singleton c)
  let sorted_positions := sortByPosNumDesc annotations_dict
  String.join
    (sorted_positions.foldl (fun l a => pyListInsert a.position (annotationMarker a) l)
      response_list)

/-! ## Helper lemmas about `String.join` -/

theorem foldl_append_data (l : List String) : ∀ init : String,
    (List.foldl (fun r s => r ++ s) init l).data
      = init.data ++ (l.map String.data).flatten := by
  induction l with
  | nil => intro init; simp
  | cons s l ih =>
    intro init
    simp only [List.foldl_cons, ih (init ++ s), List.map_cons, List.flatten_cons,
      String.data_append, List.append_assoc]

theorem join_data (l : List String) :
    (String.join l).data = (l.map String.data).flatten := by
  have h := foldl_append_data l ""
  simp only [List.nil_append] at h
  exact h

theorem join_append (l₁ l₂ : List String) :
    String.join (l₁ ++ l₂) = String.join l₁ ++ String.join l₂ :=
  String.ext (by simp [join_data])

theorem join_single (s : String) : String.join [s] = s :=
  String.ext (by simp [join_data])

theorem flatten_map_singleton (l : List Char) :
    (l.map (fun c => [c])).flatten = l := by
  induction l with
  | nil => rfl
  | cons c l ih => simp [ih]

theorem join_singletons (s : String) :
    String.join (s.toList.map (fun c => String.singleton c)) = s := by
  refine String.ext ?_
  rw [join_data, List.map_map]
  have h : (String.data ∘ fun c => String.singleton c) = fun c => [c] := by
    funext c
    simp [String.singleton]
  rw [String.toList, h, flatten_map_singleton]

theorem join_length (l : List String) :
    (String.join l).length = (l.map String.length).sum := by
  show (String.join l).data.length = (l.map String.length).sum
  rw [join_data, List.length_flatten, List.map_map]
  rfl

/-! ## C7: out-of-range positions clamp to end of text -/

theorem pyListInsert_of_length_le (x : α) :
    ∀ (l : List α) (i : Nat), l.length ≤ i → pyListInsert i x l = l ++ [x] := by
  intro l
  induction l with
  | nil => intro i _; cases i <;> rfl
  | cons b l ih =>
    intro i hi
    match i with
    | j + 1 =>
      simp only [pyListInsert, List.cons_append, List.cons.injEq, true_and]
      exact ih j (by simpa using hi)

/-- C7: rendering a stored message whose single annotation has a position
beyond the text's length does not error: Python's `list.insert` clamps,
so the marker is appended after the last character. -/
theorem render_clamps_past_end (text : String) (a : StoredAnnot)
    (h : text.length < a.index) :
    renderAnnotated text [a] = text ++ annotationMarker ⟨1, a.doc_id, a.index⟩ := by
  have hlen : (text.toList.map (fun c => String.singleton c)).length ≤ a.index := by
    simpa using Nat.le_of_lt h
  show String.join
      (List.foldl (fun l a => pyListInsert a.position (annotationMarker a) l)
        (text.toList.map (fun c => String.singleton c))
        (sortByNumberDesc (format_annotations [a]))) = _
  have hsort :
      sortByNumberDesc (format_annotations [a]) = [⟨1, a.doc_id, a.index⟩] := rfl
  rw [hsort]
  simp only [List.foldl_cons, List.foldl_nil]
  rw [pyListInsert_of_length_le _ _ _ hlen, join_append, join_singletons, join_single]

/-- Witness for C7: a position of 7 in a 2-character text appends the
marker at the end. -/
theorem render_clamps_past_end_witness :
    renderAnnotated "ab" [⟨"u", 7⟩] = "ab" ++ annotationMarker ⟨1, "u", 7⟩ :=
  render_clamps_past_end "ab" ⟨"u", 7⟩ (by decide)

/-! ## C6: output length and marker recovery for stored-message rendering -/

theorem perm_pyListInsert (x : α) :
    ∀ (l : List α) (i : Nat), (pyListInsert i x l).Perm (x :: l) := by
  intro l
  induction l with
  | nil => intro i; cases i <;> exact List.Perm.refl _
  | cons b l ih =>
    intro i
    match i with
    | 0 => exact List.Perm.refl _
    | j + 1 =>
      exact ((ih j).cons b).trans (List.Perm.swap x b l)

theorem foldl_insert_perm :
    ∀ (S : List FmtAnnot) (L0 : List String),
      (S.foldl (fun l a => pyListInsert a.position (annotationMarker a) l) L0).Perm
        (S.map annotationMarker ++ L0) := by
  intro S
  induction S with
  | nil => intro L0; exact List.Perm.refl _
  | cons a S ih =>
    intro L0
    simp only [List.foldl_cons, List.map_cons, List.cons_append]
    exact (ih _).trans
      (((perm_pyListInsert (annotationMarker a) L0 a.position).append_left
          (S.map annotationMarker)).trans List.perm_middle)

theorem perm_insertByNumberDesc (a : FmtAnnot) :
    ∀ l : List FmtAnnot, (insertByNumberDesc a l).Perm (a :: l) := by
  intro l
  induction l with
  | nil => exact List.Perm.refl _
  | cons b l ih =>
    simp only [insertByNumberDesc]
    by_cases h : b.number ≤ a.number
    · rw [if_pos h]
    · rw [if_neg h]
      exact (ih.cons b).trans (List.Perm.swap a b l)

theorem perm_sortByNumberDesc (l : List FmtAnnot) : (sortByNumberDesc l).Perm l := by
  induction l with
  | nil => exact List.Perm.refl _
  | cons a l ih =>
    exact (perm_insertByNumberDesc a (sortByNumberDesc l)).trans (ih.cons a)

theorem mem_join_infix (x : String) (l : List String) (hx : x ∈ l) :
    ∃ pre post : List Char, (String.join l).data = pre ++ x.data ++ post := by
  obtain ⟨s, t, rfl⟩ := List.append_of_mem hx
  refine ⟨(s.map String.data).flatten, (t.map String.data).flatten, ?_⟩
  simp [join_data, List.map_append]

theorem sum_map_one (l : List α) : (l.map (fun _ => (1 : Nat))).sum = l.length := by
  induction l with
  | nil => rfl
  | cons a l ih => simp [ih, Nat.add_comm]

/-- C6: for every text and annotation list, the rendered output's length
is the input length plus the sum of the inserted marker lengths, and every
inserted marker occurs intact (as a contiguous character run, scannable by
its format, carrying its `number` and `url`) in the output. -/
theorem annotated_length_and_marker_recovery (text : String) (annots : List StoredAnnot) :
    (renderAnnotated text annots).length
      = text.length
        + ((format_annotations annots).map (fun a => (annotationMarker a).length)).sum
    ∧ ∀ a ∈ format_annotations annots, ∃ pre post : List Char,
        (renderAnnotated text annots).data
          = pre ++ (annotationMarker a).data ++ post := by
  have hperm := foldl_insert_perm (sortByNumberDesc (format_annotations annots))
    (text.toList.map (fun c => String.singleton c))
  have hsp := perm_sortByNumberDesc (format_annotations annots)
  constructor
  · show (String.join _).length = _
    rw [join_length, (hperm.map String.length).sum_eq]
    rw [List.map_append, List.sum_append, List.map_map, List.map_map]
    rw [(hsp.map (String.length ∘ annotationMarker)).sum_eq]
    have hchars :
        (text.toList.map (String.length ∘ fun c => String.singleton c)).sum
          = text.length := by
      have : (String.length ∘ fun c => String.singleton c) = fun _ => (1 : Nat) := by
        funext c
        simp
      rw [this, sum_map_one]
      rfl
    rw [hchars, Nat.add_comm]
    rfl
  · intro a ha
    apply mem_join_infix
    rw [hperm.mem_iff]
    exact List.mem_append_left _ (List.mem_map_of_mem _ (hsp.mem_iff.mpr ha))

/-- Witness for C6 at a concrete text and annotation list. -/
theorem annotated_length_and_marker_recovery_witness :
    (renderAnnotated "hi" [⟨"u", 1⟩]).length
      = "hi".length
        + ((format_annotations [⟨"u", 1⟩]).map (fun a => (annotationMarker a).length)).sum
    ∧ ∃ pre post : List Char,
        (renderAnnotated "hi" [⟨"u", 1⟩]).data
          = pre ++ (annotationMarker ⟨1, "u", 1⟩).data ++ post :=
  ⟨(annotated_length_and_marker_recovery "hi" [⟨"u", 1⟩]).1,
   (annotated_length_and_marker_recovery "hi" [⟨"u", 1⟩]).2 ⟨1, "u", 1⟩ (by decide)⟩

/-! ## C2: the order annotations are applied in -/

theorem mem_formatAnnotationsFrom {b : FmtAnnot} :
    ∀ (l : List StoredAnnot) (i : Nat), b ∈ formatAnnotationsFrom i l →
      ∃ r ∈ l, b.position = r.index ∧ i ≤ b.number := by
  intro l
  induction l with
  | nil => intro i h; cases h
  | cons a l ih =>
    intro i h
    cases h with
    | head => exact ⟨a, List.mem_cons_self a l, rfl, Nat.le_refl i⟩
    | tail _ h =>
      obtain ⟨r, hr, hpos, hn⟩ := ih (i + 1) h
      exact ⟨r, List.mem_cons_of_mem a hr, hpos, Nat.le_of_succ_le hn⟩

theorem insertByNumberDesc_eq_append (a : FmtAnnot) :
    ∀ l : List FmtAnnot, (∀ b ∈ l, a.number < b.number) →
      insertByNumberDesc a l = l ++ [a] := by
  intro l
  induction l with
  | nil => intro _; rfl
  | cons b l ih =>
    intro h
    have hb : a.number < b.number := h b (List.mem_cons_self b l)
    simp only [insertByNumberDesc, if_neg (Nat.not_le.mpr hb), List.cons_append,
      List.cons.injEq, true_and]
    exact ih (fun c hc => h c (List.mem_cons_of_mem b hc))

theorem sortByNumberDesc_format_eq_reverse :
    ∀ (l : List StoredAnnot) (i : Nat),
      sortByNumberDesc (formatAnnotationsFrom i l)
        = (formatAnnotationsFrom i l).reverse := by
  intro l
  induction l with
  | nil => intro i; rfl
  | cons a l ih =>
    intro i
    show insertByNumberDesc ⟨i, a.doc_id, a.index⟩
        (sortByNumberDesc (formatAnnotationsFrom (i + 1) l))
      = (⟨i, a.doc_id, a.index⟩ :: formatAnnotationsFrom (i + 1) l).reverse
    rw [ih (i + 1), List.reverse_cons]
    refine insertByNumberDesc_eq_append _ _ ?_
    intro b hb
    obtain ⟨r, _, _, hn⟩ :=
      mem_formatAnnotationsFrom l (i + 1) (List.mem_reverse.mp hb)
    exact Nat.lt_of_succ_le hn

theorem formatAnnotationsFrom_pairwise :
    ∀ (l : List StoredAnnot) (i : Nat),
      l.Pairwise (fun a b => a.index ≤ b.index) →
      (formatAnnotationsFrom i l).Pairwise
        (fun x y => x.position ≤ y.position ∧ x.number < y.number) := by
  intro l
  induction l with
  | nil => intro i _; exact List.Pairwise.nil
  | cons a l ih =>
    intro i h
    rw [List.pairwise_cons] at h
    refine List.Pairwise.cons (fun y hy => ?_) (ih (i + 1) h.2)
    obtain ⟨r, hr, hpos, hn⟩ := mem_formatAnnotationsFrom l (i + 1) hy
    exact ⟨hpos ▸ h.1 r hr, Nat.lt_of_succ_le hn⟩

theorem insertByPosNumDesc_eq_append (a : FmtAnnot) :
    ∀ l : List FmtAnnot,
      (∀ b ∈ l, a.position ≤ b.position ∧ a.number < b.number) →
      insertByPosNumDesc a l = l ++ [a] := by
  intro l
  induction l with
  | nil => intro _; rfl
  | cons b l ih =>
    intro h
    have hb := h b (List.mem_cons_self b l)
    have hcond : ¬(b.position < a.position ∨ (b.position = a.position ∧ b.number ≤ a.number)) := by
      push_neg
      exact ⟨hb.1, fun _ => hb.2⟩
    simp only [insertByPosNumDesc, if_neg hcond, List.cons_append, List.cons.injEq, true_and]
    exact ih (fun c hc => h c (List.mem_cons_of_mem b hc))

theorem sortByPosNumDesc_eq_reverse :
    ∀ l : List FmtAnnot,
      l.Pairwise (fun x y => x.position ≤ y.position ∧ x.number < y.number) →
      sortByPosNumDesc l = l.reverse := by
  intro l
  induction l with
  | nil => intro _; rfl
  | cons a l ih =>
    intro h
    rw [List.pairwise_cons] at h
    show insertByPosNumDesc a (sortByPosNumDesc l) = _
    rw [ih h.2, insertByPosNumDesc_eq_append _ _ (fun b hb => h.1 b (List.mem_reverse.mp hb)),
      List.reverse_cons]

/-- C2 counterexample: with input annotations at positions 5 then 0, the
code's `sorted_positions` list is ordered by `number` descending — i.e.
position 0 before position 5, ascending, not descending — and the
rendered output differs from what position-descending application
produces: the second insertion lands at a shifted offset. -/
theorem sorted_positions_not_position_desc :
    sortByNumberDesc (format_annotations [⟨"a", 5⟩, ⟨"b", 0⟩])
      = [⟨2, "b", 0⟩, ⟨1, "a", 5⟩]
    ∧ ¬ List.Pairwise (fun x y => y.position < x.position
          ∨ (y.position = x.position ∧ y.number < x.number))
        (sortByNumberDesc (format_annotations [⟨"a", 5⟩, ⟨"b", 0⟩]))
    ∧ renderAnnotated "0123456789" [⟨"a", 5⟩, ⟨"b", 0⟩]
        ≠ renderAnnotatedSpec "0123456789" [⟨"a", 5⟩, ⟨"b", 0⟩] := by
  refine ⟨rfl, by decide, by decide⟩

/-- C2 amended: the code sorts annotations by `number` descending (the
reverse of their enumeration order), not by position.  When the input
annotations are listed in nondecreasing position order, that order
coincides with position descending (ties by `number` descending), so each
insertion never shifts a not-yet-processed offset, and the rendering
agrees with position-descending application for every text. -/
theorem annotations_applied_in_number_desc_order (annots : List StoredAnnot)
    (h : annots.Pairwise (fun a b => a.index ≤ b.index)) :
    sortByNumberDesc (format_annotations annots)
      = (format_annotations annots).reverse
    ∧ List.Pairwise (fun x y => y.position < x.position
          ∨ (y.position = x.position ∧ y.number < x.number))
        (sortByNumberDesc (format_annotations annots))
    ∧ ∀ text, renderAnnotated text annots = renderAnnotatedSpec text annots := by
  have hrev := sortByNumberDesc_format_eq_reverse annots 1
  have hpw := formatAnnotationsFrom_pairwise annots 1 h
  refine ⟨hrev, ?_, ?_⟩
  · rw [show sortByNumberDesc (format_annotations annots)
        = (format_annotations annots).reverse from hrev]
    rw [List.pairwise_reverse]
    refine hpw.imp ?_
    intro x y hxy
    rcases Nat.lt_or_ge x.position y.position with hlt | hge
    · exact Or.inl hlt
    · exact Or.inr ⟨Nat.le_antisymm hxy.1 hge, hxy.2⟩
  · intro text
    show String.join
        (List.foldl (fun l a => pyListInsert a.position (annotationMarker a) l)
          (text.toList.map (fun c => String.singleton c))
          (sortByNumberDesc (formatAnnotationsFrom 1 annots)))
      = String.join
        (List.foldl (fun l a => pyListInsert a.position (annotationMarker a) l)
          (text.toList.map (fun c => String.singleton c))
          (sortByPosNumDesc (formatAnnotationsFrom 1 annots)))
    rw [hrev, sortByPosNumDesc_eq_reverse _ hpw]

/-- Witness for C2 amended, at a concrete nondecreasing-position input. -/
theorem annotations_applied_in_number_desc_order_witness :
    sortByNumberDesc (format_annotations [⟨"a", 0⟩, ⟨"b", 3⟩])
      = (format_annotations [⟨"a", 0⟩, ⟨"b", 3⟩]).reverse
    ∧ renderAnnotated "hello" [⟨"a", 0⟩, ⟨"b", 3⟩]
        = renderAnnotatedSpec "hello" [⟨"a", 0⟩, ⟨"b", 3⟩] := by
  have h := annotations_applied_in_number_desc_order [⟨"a", 0⟩, ⟨"b", 3⟩] (by decide)
  exact ⟨h.1, h.2.2 "hello"⟩

/-! ## Streaming decode and assembly (`call_cortex_agent`, `main` loop) -/

/-- The `annotation` object of a `response.text.annotation` event payload:
`{doc_id, index}`, each field possibly absent (`dict.get` gives `None`). -/
structure StreamAnnot where
  doc_id : Option String
  index : Option Nat
deriving DecidableEq, Repr

/-- The parsed JSON body of one server-sent event; `ann` models the
payload's `annotation` key. -/
structure EventData where
  text : Option String
  ann : Option StreamAnnot
  annotation_index : Option Nat
deriving DecidableEq, Repr

/-- One server-sent event: its `event` name and parsed `data`. -/
structure SSEEvent where
  event : String
  data : EventData
deriving DecidableEq, Repr

/-- How a Python f-string renders an optional value: `None` when absent. -/
def pyStr (o : Option String) : String :=
  match o with
  | some s => s
  | none => "None"

/-- How a Python f-string renders an optional integer: `None` when absent. -/
def pyStrNat (o : Option Nat) : String :=
  match o with
  | some n => toString n
  | none => "None"

/-- The marker string `call_cortex_agent` yields for an annotation event:
`  :small[:blue-background[[**I**](D)]] ` with `I` the `annotation_index`
and `D` the `doc_id`. -/
def streamMarker (annotation_index : Option Nat) (doc_id : Option String) : String :=
  "  :small[:blue-background[[**" ++ pyStrNat annotation_index ++ "**](" ++ pyStr doc_id
    ++ ")]] "

/-- The event loop of `CortexAgent.call_cortex_agent`: for each event,
match on its name; the three recognized names each yield one
`(is_text_response, content)` tuple, any other name yields nothing.  For
an annotation event whose payload lacks the `annotation` object, Python
raises `AttributeError` on `annotation.get("doc_id")`, modelled as
`Except.error`. -/
def decodeEvents : List SSEEvent → Except String (List (Bool × Option String))
  | [] => .ok []
  | e :: rest =>
    if e.event = "response.thinking.delta" then
      (decodeEvents rest).map (fun l => (false, e.data.text) :: l)
    else if e.event = "response.text.delta" then
      (decodeEvents rest).map (fun l => (true, e.data.text) :: l)
    else if e.event = "response.text.annotation" then
      match e.data.ann with
      | none => .error "AttributeError"
      | some a =>
        (decodeEvents rest).map
          (fun l => (true, some (streamMarker e.data.annotation_index a.doc_id)) :: l)
    else decodeEvents rest

/-- Whether an event name is one of the three the loop recognizes. -/
def recognizedEvent (name : String) : Bool :=
  name = "response.thinking.delta" || name = "response.text.delta"
    || name = "response.text.annotation"

/-- The single tuple a recognized event decodes to. -/
def decodeOne (e : SSEEvent) : Bool × Option String :=
  if e.event = "response.thinking.delta" then (false, e.data.text)
  else if e.event = "response.text.delta" then (true, e.data.text)
  else
    (true, some (streamMarker e.data.annotation_index
      (match e.data.ann with | some a => a.doc_id | none => none)))

/-- The consumer loop in `main`: `text_txt += nxt[1]` when `nxt[0]` is
true, else `planning_txt += nxt[1]`.  Appending `None` to a `str` raises
`TypeError`, modelled as `Except.error`.  Returns the final
`(text_txt, planning_txt)` buffers. -/
def assembleLoop (text_txt planning_txt : String) :
    List (Bool × Option String) → Except String (String × String)
  | [] => .ok (text_txt, planning_txt)
  | nxt :: rest =>
    match nxt.2 with
    | none => .error "TypeError"
    | some t =>
      if nxt.1 then assembleLoop (text_txt ++ t) planning_txt rest
      else assembleLoop text_txt (planning_txt ++ t) rest

/-- One agent turn as the `main` loop drives it: decode the event stream,
then fold the decoded tuples into the answer and reasoning buffers. -/
def run_agent_turn (events : List SSEEvent) : Except String (String × String) :=
  match decodeEvents events with
  | .error msg => .error msg
  | .ok decoded => assembleLoop "" "" decoded

/-! ## C5: one decoded tuple per recognized event, in order -/

/-- C5: for any event sequence whose annotation events carry their
`annotation` object, the decode loop yields exactly one tuple per event
with a recognized name, in input order, and nothing for events with
unrecognized names. -/
theorem decode_one_per_recognized_event (events : List SSEEvent)
    (h : ∀ e ∈ events, e.event = "response.text.annotation" → e.data.ann ≠ none) :
    decodeEvents events
      = .ok ((events.filter (fun e => recognizedEvent e.event)).map decodeOne) := by
  induction events with
  | nil => rfl
  | cons e rest ih =>
    have hok := ih (fun x hx => h x (List.mem_cons_of_mem e hx))
    by_cases h1 : e.event = "response.thinking.delta"
    · simp [decodeEvents, h1, hok, recognizedEvent, List.filter_cons, decodeOne, Except.map]
    · by_cases h2 : e.event = "response.text.delta"
      · simp [decodeEvents, h1, h2, hok, recognizedEvent, List.filter_cons, decodeOne,
          Except.map]
      · by_cases h3 : e.event = "response.text.annotation"
        · have hann := h e (List.mem_cons_self e rest) h3
          match hv : e.data.ann with
          | none => exact absurd hv hann
          | some a =>
            simp [decodeEvents, h1, h2, h3, hv, hok, recognizedEvent, List.filter_cons,
              decodeOne, Except.map]
        · simp [decodeEvents, h1, h2, h3, hok, recognizedEvent, List.filter_cons]

/-- Witness for C5: a four-event stream with one unrecognized name decodes
to exactly the three recognized events' tuples, in order. -/
theorem decode_one_per_recognized_event_witness :
    decodeEvents
        [⟨"response.thinking.delta", ⟨some "a", none, none⟩⟩,
         ⟨"unknown.event", ⟨some "z", none, none⟩⟩,
         ⟨"response.text.delta", ⟨some "b", none, none⟩⟩,
         ⟨"response.text.annotation", ⟨none, some ⟨some "d", some 0⟩, some 1⟩⟩]
      = .ok (((
          [⟨"response.thinking.delta", ⟨some "a", none, none⟩⟩,
           ⟨"unknown.event", ⟨some "z", none, none⟩⟩,
           ⟨"response.text.delta", ⟨some "b", none, none⟩⟩,
           ⟨"response.text.annotation", ⟨none, some ⟨some "d", some 0⟩, some 1⟩⟩]
            : List SSEEvent).filter
          (fun e => recognizedEvent e.event)).map decodeOne) :=
  decode_one_per_recognized_event _ (by decide)

/-! ## C9: live-stream annotation markers are appended at the buffer tail -/

theorem decodeEvents_append (l₁ l₂ : List SSEEvent) :
    decodeEvents (l₁ ++ l₂)
      = (decodeEvents l₁).bind (fun a => (decodeEvents l₂).map (fun b => a ++ b)) := by
  induction l₁ with
  | nil =>
    cases h2 : decodeEvents l₂ <;> simp [decodeEvents, Except.bind, Except.map, h2]
  | cons e rest ih =>
    by_cases h1 : e.event = "response.thinking.delta"
    · cases hr : decodeEvents rest <;> cases h2 : decodeEvents l₂ <;>
        simp_all [decodeEvents, Except.bind, Except.map, h1]
    · by_cases h2e : e.event = "response.text.delta"
      · cases hr : decodeEvents rest <;> cases h2 : decodeEvents l₂ <;>
          simp_all [decodeEvents, Except.bind, Except.map]
      · by_cases h3 : e.event = "response.text.annotation"
        · match hv : e.data.ann with
          | none => simp [decodeEvents, h1, h2e, h3, hv, Except.bind]
          | some a =>
            cases hr : decodeEvents rest <;> cases h2 : decodeEvents l₂ <;>
              simp_all [decodeEvents, Except.bind, Except.map]
        · simp [decodeEvents, h1, h2e, h3, ih]

theorem assembleLoop_append (l₁ l₂ : List (Bool × Option String)) :
    ∀ t p : String,
      assembleLoop t p (l₁ ++ l₂)
        = (assembleLoop t p l₁).bind (fun r => assembleLoop r.1 r.2 l₂) := by
  induction l₁ with
  | nil => intro t p; simp [assembleLoop, Except.bind]
  | cons nxt rest ih =>
    intro t p
    cases hv : nxt.2 with
    | none => simp [assembleLoop, hv, Except.bind]
    | some s =>
      by_cases hb : nxt.1 = true
      · simp [assembleLoop, hv, hb, ih]
      · simp [assembleLoop, hv, hb, ih]

/-- C9 counterexample: on the spec's scenario stream the final answer
buffer is the code's styled marker text, not the claim's literal
`"X is  [1](doc1) a value."`. -/
theorem scenario_buffer_differs_from_claimed_literal :
    run_agent_turn
        [⟨"response.thinking.delta", ⟨some "Let me check", none, none⟩⟩,
         ⟨"response.text.delta", ⟨some "X is ", none, none⟩⟩,
         ⟨"response.text.annotation", ⟨none, some ⟨some "doc1", some 0⟩, some 1⟩⟩,
         ⟨"response.text.delta", ⟨some "a value.", none, none⟩⟩]
      = .ok ("X is   :small[:blue-background[[**1**](doc1)]] a value.", "Let me check")
    ∧ "X is   :small[:blue-background[[**1**](doc1)]] a value."
        ≠ "X is  [1](doc1) a value." := by
  refine ⟨rfl, by decide⟩

/-- C9 amended: a `TextAnnotation` event yields a marker synthesized from
`(annotation_index, doc_id)` appended at the current tail of the answer
buffer; on the scenario stream the final answer buffer is
`"X is   :small[:blue-background[[**1**](doc1)]] a value."` (the code's
marker format, not the claim's plain `[1](doc1)` form). -/
theorem annotation_marker_appended_at_tail :
    (∀ (pre : List SSEEvent) (a : StreamAnnot) (idx : Option Nat) (ans rsn : String),
       run_agent_turn pre = .ok (ans, rsn) →
       run_agent_turn (pre ++ [⟨"response.text.annotation", ⟨none, some a, idx⟩⟩])
         = .ok (ans ++ streamMarker idx a.doc_id, rsn))
    ∧ run_agent_turn
        [⟨"response.thinking.delta", ⟨some "Let me check", none, none⟩⟩,
         ⟨"response.text.delta", ⟨some "X is ", none, none⟩⟩,
         ⟨"response.text.annotation", ⟨none, some ⟨some "doc1", some 0⟩, some 1⟩⟩,
         ⟨"response.text.delta", ⟨some "a value.", none, none⟩⟩]
      = .ok ("X is   :small[:blue-background[[**1**](doc1)]] a value.", "Let me check") := by
  constructor
  · intro pre a idx ans rsn hrun
    unfold run_agent_turn at hrun ⊢
    cases hd : decodeEvents pre with
    | error m => rw [hd] at hrun; cases hrun
    | ok dl =>
      rw [hd] at hrun
      rw [decodeEvents_append, hd]
      have hone : decodeEvents [⟨"response.text.annotation", ⟨none, some a, idx⟩⟩]
          = .ok [(true, some (streamMarker idx a.doc_id))] := by
        simp [decodeEvents, Except.map]
      rw [hone]
      have hrun2 : assembleLoop "" "" dl = Except.ok (ans, rsn) := hrun
      show assembleLoop "" "" (dl ++ [(true, some (streamMarker idx a.doc_id))]) = _
      rw [assembleLoop_append, hrun2]
      rfl
  · rfl

/-- Witness for C9: appending the scenario's annotation event to the first
two scenario events extends the answer buffer by the marker. -/
theorem annotation_marker_appended_at_tail_witness :
    run_agent_turn
        ([⟨"response.thinking.delta", ⟨some "Let me check", none, none⟩⟩,
          ⟨"response.text.delta", ⟨some "X is ", none, none⟩⟩]
          ++ [⟨"response.text.annotation", ⟨none, some ⟨some "doc1", some 0⟩, some 1⟩⟩])
      = .ok ("X is " ++ streamMarker (some 1) (some "doc1"), "Let me check") :=
  annotation_marker_appended_at_tail.1 _ ⟨some "doc1", some 0⟩ (some 1) "X is "
    "Let me check" rfl

/-! ## C8: recency bucketing (`main`, sidebar thread list) -/

/-- The three recency buckets the sidebar groups threads into. -/
inductive Bucket where
  | today
  | yesterday
  | older
deriving DecidableEq, Repr

/-- Modelled from the spec: the locale-aware "natural date" comparison
(`humanize.naturaldate` applied to
`datetime.fromtimestamp(updated_on / 1000)`), reduced to calendar days.
It returns `"today"` / `"yesterday"` / `"tomorrow"` when the value's
calendar day equals the current day / the day before / the day after, and
a formatted date string (a month-day rendering, never one of those three
words) otherwise. -/
def naturaldate (valueDay todayDay : Int) : String :=
  if valueDay = todayDay then "today"
  else if valueDay = todayDay - 1 then "yesterday"
  else if valueDay = todayDay + 1 then "tomorrow"
  else "on day " ++ toString valueDay

/-- The calendar day of an epoch-millisecond timestamp under a fixed
timezone offset `tz` (in ms): floor division by the milliseconds in a
day.  `Int` division is Euclidean, which coincides with floor division
for this positive divisor. -/
def localDay (tz t_ms : Int) : Int := (t_ms + tz) / 86400000

/-- The `match cat:` in `main` assigning each thread's naturaldate string
to a bucket: `"today"`, `"yesterday"`, and a catch-all `older`. -/
def bucketOfCat (cat : String) : Bucket :=
  if cat = "today" then .today
  else if cat = "yesterday" then .yesterday
  else .older

/-- The classification `main` computes per thread: the `threads_times`
naturaldate of `updated_on` fed through the bucket match. -/
def threadBucket (tz nowMs updatedMs : Int) : Bucket :=
  bucketOfCat (naturaldate (localDay tz updatedMs) (localDay tz nowMs))

theorem localDay_sub_days (tz t k : Int) :
    localDay tz (t - k * 86400000) = localDay tz t - k := by
  unfold localDay
  have h : t - k * 86400000 + tz = (t + tz) + (-k) * 86400000 := by ring
  rw [h, Int.add_mul_ediv_right _ _ (by norm_num)]
  ring

theorem on_day_ne_today (s : String) : ("on day " ++ s) ≠ "today" := by
  intro h
  have hd := congrArg String.data h
  rw [String.data_append] at hd
  have h1 : "on day ".data = 'o' :: "n day ".data := rfl
  have h2 : "today".data = 't' :: "oday".data := rfl
  rw [h1, h2, List.cons_append] at hd
  injection hd with h3 _
  exact absurd h3 (by decide)

theorem on_day_ne_yesterday (s : String) : ("on day " ++ s) ≠ "yesterday" := by
  intro h
  have hd := congrArg String.data h
  rw [String.data_append] at hd
  have h1 : "on day ".data = 'o' :: "n day ".data := rfl
  have h2 : "yesterday".data = 'y' :: "esterday".data := rfl
  rw [h1, h2, List.cons_append] at hd
  injection hd with h3 _
  exact absurd h3 (by decide)

/-- C8: the sidebar classification is total (every thread gets exactly one
of the three buckets, as `threadBucket` is a function into `Bucket`), and
at the boundaries: a thread updated now is bucketed `today`, one updated
24 hours ago (necessarily on the previous calendar day) is bucketed
`yesterday`, and one updated 10 days ago is bucketed `older` — for every
current time and timezone offset. -/
theorem recency_bucket_boundaries (tz now : Int) :
    threadBucket tz now now = .today
    ∧ threadBucket tz now (now - 86400000) = .yesterday
    ∧ threadBucket tz now (now - 864000000) = .older := by
  have e1 : now - 86400000 = now - 1 * 86400000 := by norm_num
  have e10 : now - 864000000 = now - 10 * 86400000 := by norm_num
  refine ⟨?_, ?_, ?_⟩
  · show bucketOfCat (naturaldate (localDay tz now) (localDay tz now)) = .today
    rw [naturaldate, if_pos rfl]
    rfl
  · show bucketOfCat (naturaldate (localDay tz (now - 86400000)) (localDay tz now)) = .yesterday
    rw [e1, localDay_sub_days, naturaldate]
    rw [if_neg (by omega), if_pos rfl]
    rfl
  · show bucketOfCat (naturaldate (localDay tz (now - 864000000)) (localDay tz now)) = .older
    rw [e10, localDay_sub_days, naturaldate]
    rw [if_neg (by omega), if_neg (by omega), if_neg (by omega)]
    rw [bucketOfCat, if_neg (on_day_ne_today _), if_neg (on_day_ne_yesterday _)]
